import Mathlib

/-!
Verification development for the djtag_sync repository.

The development shallowly embeds the snapshot/commit/diff/merge core of the
repository (src/track.py, src/library.py, src/library_diff.py,
src/utilities.py) into Lean.

Modelling conventions, fixed once here:

* Python `dict`s are embedded as association lists `List (key × value)`;
  lookup takes the first matching key, mirroring the fact that a Python dict
  holds at most one entry per key.  Well-formedness (`Nodup` of the key list)
  is carried as an explicit hypothesis where a proof needs it.
* Tag values are embedded as `Multiset String`.  `Track.diff` calls the
  external deepdiff library with `ignore_order=True, report_repetition=True`,
  i.e. it compares collection-valued tags with multiset semantics; the
  multiset domain makes that comparison primitive.  The deepdiff library
  itself is not part of the repository, so its diff categories
  (`dictionary_item_added`, `dictionary_item_removed`, `iterable_item_added`,
  `iterable_item_removed`) are modelled from the spec's description of
  `StructuralDiff` (spec sections 3 and 4.2).
* `datetime.now()` values are embedded as natural numbers (microseconds);
  the commit-file name produced by `strftime('%Y-%m-%d_%H-%M-%S')` keeps
  one-second resolution, embedded as truncating division `fmtSec`.
* Raised Python exceptions are embedded as `Except String`; `.error` is a
  raise propagating to the caller, `.ok` is a normal return.
* Console output that the spec treats as observable (skip notices and the
  like) is embedded as an `Event` trace carried in the library state.
-/

/-- First-match lookup in an association list, the embedding of Python
`dict[key]` / `dict.get(key)`. -/
def lookupKey {κ β : Type} [DecidableEq κ] : List (κ × β) → κ → Option β
  | [], _ => none
  | p :: rest, k => if p.1 = k then some p.2 else lookupKey rest k

/-- Key list of an association list (`dict.keys()`). -/
def keysOf {κ β : Type} (l : List (κ × β)) : List κ := l.map Prod.fst

/-- Replace the value stored at a key that is already present
(`d[k] = v` for an existing key). -/
def updateKey {κ β : Type} [DecidableEq κ] (l : List (κ × β)) (k : κ) (v : β) :
    List (κ × β) :=
  l.map (fun p => if p.1 = k then (k, v) else p)

/-- Python `d[k] = v`: overwrite when the key exists, append otherwise.
Also models writing a snapshot file: a second write to the same file name
replaces the first. -/
def setKey {κ β : Type} [DecidableEq κ] (l : List (κ × β)) (k : κ) (v : β) :
    List (κ × β) :=
  if (lookupKey l k).isSome then updateKey l k v else l ++ [(k, v)]

/-- A tag value: the members of a list- or set-valued tag, compared with
order-insensitive, repetition-aware (multiset) semantics. -/
abbrev TagVal := Multiset String

/-- A tag mapping (`Track.tags`): tag name to value. -/
abbrev Tags := List (String × TagVal)

/-- Value of a tag, where a missing tag reads as the empty collection.
Used for the item-level change records of a structural diff. -/
def lookupOr0 (l : Tags) (k : String) : TagVal := (lookupKey l k).getD 0

/-- One side of the item-level diff: for every key of `src` that `other`
also holds, the members present in `src`'s value beyond `other`'s
(multiset difference); zero differences are not recorded.  With
`src := old, other := new` this is deepdiff's `iterable_item_removed`,
with the arguments swapped it is `iterable_item_added`. -/
def sideItems (src other : Tags) : Tags :=
  src.filterMap (fun p =>
    match lookupKey other p.1 with
    | some b => if p.2 - b = 0 then none else some (p.1, p.2 - b)
    | none => none)

/-- The structural diff between two tag mappings, the embedding of the
deepdiff result used by `Track.diff` (src/track.py lines 41-42):
keys only in `new`, keys only in `old`, and per shared key the members
removed and added. -/
structure TagsDiff where
  dictAdded : Tags
  dictRemoved : List String
  itemsRemoved : Tags
  itemsAdded : Tags
deriving DecidableEq

/-- `Track.diff` comparison core: `DeepDiff(old, new, ignore_order=True,
report_repetition=True)` modelled from the spec's StructuralDiff contract
(order-insensitive, repetition-aware comparison of the two mappings). -/
def tagsDiff (old new : Tags) : TagsDiff :=
  { dictAdded := new.filter (fun p => (lookupKey old p.1).isNone)
  , dictRemoved := (keysOf old).filter (fun k => (lookupKey new k).isNone)
  , itemsRemoved := sideItems old new
  , itemsAdded := sideItems new old }

/-- Falsiness of a deepdiff result (`if diff:`): no recorded change. -/
def TagsDiff.isEmpty (d : TagsDiff) : Bool :=
  d.dictAdded.isEmpty && d.dictRemoved.isEmpty &&
    d.itemsRemoved.isEmpty && d.itemsAdded.isEmpty

/-- Replay of a structural diff onto a tag mapping (`Delta(diff) + tags`
in `Track.apply`): removed keys are dropped, added keys are inserted,
item-level changes are applied to the value held by the target, and an
item-level change whose key the target does not hold is scaffolded in
from the empty collection. -/
def applyTags (d : TagsDiff) (t : Tags) : Tags :=
  let kept := t.filter (fun p => !(decide (p.1 ∈ d.dictRemoved)))
  let added := d.dictAdded.filter (fun p => (lookupKey t p.1).isNone)
  let updated := (kept ++ added).map
    (fun p => (p.1, p.2 - lookupOr0 d.itemsRemoved p.1 + lookupOr0 d.itemsAdded p.1))
  updated ++
    (d.itemsAdded.filter (fun p => (lookupKey (kept ++ added) p.1).isNone)).map
      (fun p => (p.1, (0 : TagVal) - lookupOr0 d.itemsRemoved p.1 + p.2))

/-- A music track: file path plus tag mapping (src/track.py `Track`).
The constructor-time genre normalization is order-only in the multiset
domain; it is analyzed separately at character level (`clean_genre_list`
below). -/
structure Track where
  path : String
  tags : Tags
deriving DecidableEq

/-- `Track.diff` (src/track.py line 41): structural diff of the two
tracks' tag mappings, `self` as the old side. -/
def Track.diff (tr other : Track) : TagsDiff :=
  tagsDiff tr.tags other.tags

/-- `Track.apply` (src/track.py lines 44-54): replay a diff onto this
track's tags in place; a falsy diff is skipped (`if diff:`). -/
def Track.apply (tr : Track) (d : TagsDiff) : Track :=
  if d.isEmpty then tr else { tr with tags := applyTags d tr.tags }

/-- A Python string, embedded as its character list so that `split`/`strip`
can be reasoned about directly. -/
abbrev Str := List Char

/-- Python's default `str.strip()` whitespace test (ASCII whitespace). -/
def isWS (c : Char) : Bool :=
  c = ' ' || c = '\t' || c = '\n' || c = '\r' || c = '\x0b' || c = '\x0c'

/-- Python `s.strip()`: drop leading and trailing whitespace. -/
def stripChars (s : Str) : Str :=
  ((s.dropWhile isWS).reverse.dropWhile isWS).reverse

/-- Python `s.split(',')`: the comma-separated pieces of `s`; the empty
string yields one empty piece. -/
def splitComma : Str → List Str
  | [] => [[]]
  | c :: rest =>
    if c = ',' then [] :: splitComma rest
    else
      match splitComma rest with
      | [] => [[c]]
      | h :: t => (c :: h) :: t

/-- The comprehension `[g.strip() for genre in genre_list for g in
genre.split(',')]` shared by every `clean_genre_list` in the repository. -/
def splitStrip (genre_list : List Str) : List Str :=
  genre_list.flatMap (fun genre => (splitComma genre).map stripChars)

/-- `clean_genre_list` (src/utilities.py lines 1-6, identical to
`Track._clean_genre_list`, src/track.py lines 23-28): split each element
on commas, strip, deduplicate, and sort; `sorted(set(xs))` is embedded as
sorting the deduplicated list under the lexicographic string order. -/
def clean_genre_list (genre_list : List Str) : List Str :=
  List.insertionSort (· ≤ ·) (splitStrip genre_list).dedup

/-- A Python value that a genre-cleaning helper can return: a list keeps
its element order, a set has none.  In Python a list and a set are never
equal (`[x] == {x}` is `False`), which this embedding preserves. -/
inductive PyGenres where
  | pyList (l : List Str)
  | pySet (s : Finset Str)
deriving DecidableEq

/-- `Track._clean_genre_list` (src/track.py lines 23-28): returns the
sorted, deduplicated list `sorted(set(genre_split))`. -/
def Track_clean_genre_list (genre_list : List Str) : PyGenres :=
  .pyList (clean_genre_list genre_list)

/-- `DJLibrary._clean_genre_list` (src/library.py lines 224-236): returns
the bare set `set(genre_split)` — no `sorted(...)` around it. -/
def DJLibrary_clean_genre_list (genre_list : List Str) : PyGenres :=
  .pySet (splitStrip genre_list).toFinset

/-- The elements a genre-cleaning result holds, forgetting order. -/
def PyGenres.elems : PyGenres → Finset Str
  | .pyList l => l.toFinset
  | .pySet s => s

/-- A `datetime.now()` value, in microseconds. -/
abbrev DT := ℕ

/-- `_datetime_to_commit_file` (src/library.py lines 87-91): the commit
file name keeps one-second resolution, so two datetimes name the same
file iff they fall in the same second. -/
def fmtSec (dt : DT) : ℕ := dt / 1000000

/-- Python `max` over a list of datetimes (used on nonempty lists only). -/
def maxD (l : List DT) : DT := l.foldl max 0

/-- The track mapping of one library or snapshot: path to `Track`. -/
abbrev TrackMap := List (String × Track)

/-- `DJLibraryDiff` (src/library_diff.py lines 13-49): per path present
in both track mappings with differing tags, the structural diff of the
tags; additions and removals of whole tracks are ignored. -/
def djLibraryDiff (old new : TrackMap) : List (String × TagsDiff) :=
  (keysOf old ++ keysOf new).dedup.filterMap (fun p =>
    match lookupKey old p, lookupKey new p with
    | some ot, some nt =>
      let d := ot.diff nt
      if d.isEmpty then none else some (p, d)
    | _, _ => none)

/-- The result type of `DJLibraryDiff`; `__bool__` is list nonemptiness. -/
abbrev LibDiff := List (String × TagsDiff)

/-- Observable console notices of the commit/merge subsystem. -/
inductive Event where
  | skipCommit
  | committed
  | mergeNoop
  | noUpdates
  | appliedDelta
  | wroteLibrary
deriving DecidableEq

/-- The state of one `DJLibrary` (src/library.py): live tracks, the
in-memory commit timestamp list, the on-disk snapshot files keyed by
their second-resolution name, the `meta.yaml` watermark map keyed by the
counterpart's `library_type` (holding `last_merged`), plus the printed
notices. -/
structure Library where
  library_type : String
  tracks : TrackMap
  commits : List DT
  store : List (ℕ × TrackMap)
  meta : List (String × DT)
  events : List Event
deriving DecidableEq

/-- `DJLibrary.load_commit` (src/library.py lines 111-117): open the
snapshot file named after the datetime; a missing file raises. -/
def Library.load_commit (lib : Library) (dt : DT) : Except String TrackMap :=
  match lookupKey lib.store (fmtSec dt) with
  | some m => .ok m
  | none => .error "FileNotFoundError"

/-- `DJLibrary.diff` (src/library.py lines 119-128): raise when the log
is empty, otherwise diff the most recent stored snapshot against the
live tracks. -/
def Library.diff (lib : Library) : Except String LibDiff :=
  if lib.commits.isEmpty then .error "No commits found to diff against."
  else (lib.load_commit (maxD lib.commits)).map (fun m => djLibraryDiff m lib.tracks)

/-- `DJLibrary._scaffold_track`'s genre cleanup in the multiset domain
(src/library.py lines 220-222 and 235-236): split each member on commas,
strip, and collapse to a set (`set(genre_split)`), i.e. deduplicate. -/
def scaffoldGenre (v : TagVal) : TagVal :=
  (v.bind (fun s => ((s.splitOn ",").map String.trim : List String))).dedup

/-- `DJLibrary._scaffold_track` (src/library.py lines 211-222): after a
generic apply, normalize the genre tag when present. -/
def scaffold_track (tr : Track) : Track :=
  match lookupKey tr.tags "genre" with
  | some v => { tr with tags := updateKey tr.tags "genre" (scaffoldGenre v) }
  | none => tr

/-- The per-track body of `DJLibrary.apply` (src/library.py lines
143-150): replay the track's diff, then scaffold. -/
def apply_step (tr : Track) (d : TagsDiff) : Track :=
  scaffold_track (tr.apply d)

/-- `DJLibrary.apply`'s loop (src/library.py lines 138-150) with the
per-track body abstracted as a fallible operation.  The source loop
contains no `try`/`except`, so the embedding lets an `.error` from one
track's body short-circuit the whole loop — exactly the exception
propagation of the source. -/
def applyTracksE (op : Track → TagsDiff → Except String Track) :
    TrackMap → LibDiff → Except String TrackMap
  | tracks, [] => .ok tracks
  | tracks, pd :: rest =>
    match lookupKey tracks pd.1 with
    | some tr =>
      (op tr pd.2).bind (fun tr' => applyTracksE op (updateKey tracks pd.1 tr') rest)
    | none => applyTracksE op tracks rest

/-- `DJLibrary.apply` (src/library.py lines 130-150): for every modified
path held by the target, replay the diff and scaffold the track. -/
def applyTracks : TrackMap → LibDiff → TrackMap
  | tracks, [] => tracks
  | tracks, pd :: rest =>
    match lookupKey tracks pd.1 with
    | some tr => applyTracks (updateKey tracks pd.1 (apply_step tr pd.2)) rest
    | none => applyTracks tracks rest

/-- `DJLibrary.commit` (src/library.py lines 93-109): skip (with a
notice) when the diff against the latest snapshot is falsy; otherwise
write the snapshot file named by one `datetime.now()` call and append a
second `datetime.now()` call to the commit list.  A raise inside
`self.diff()` propagates: there is no handler. -/
def Library.commit (lib : Library) (t1 t2 : DT) : Except String Library :=
  match lib.diff with
  | .error e => .error e
  | .ok d =>
    if d.isEmpty then .ok { lib with events := lib.events ++ [Event.skipCommit] }
    else .ok { lib with
      store := setKey lib.store (fmtSec t1) lib.tracks
      commits := lib.commits ++ [t2]
      events := lib.events ++ [Event.committed] }

/-- The unmerged commits of `other` (src/library.py lines 171-176):
counterpart commits strictly after the watermark, sorted ascending
(`filtered_commits.sort()`, embedded as a structural stable sort). -/
def unmergedOf (self other : Library) : List DT :=
  List.insertionSort (· ≤ ·) (other.commits.filter (fun dt =>
    match lookupKey self.meta other.library_type with
    | none => true
    | some w => decide (w < dt)))

/-- The baseline lookup of `merge` (src/library.py lines 183-185):
`max((dt for dt in other.commits if dt < first), default=None)`. -/
def baselineOf (other : Library) (first : DT) : Option DT :=
  let earlier := other.commits.filter (fun dt => decide (dt < first))
  if earlier.isEmpty then none else some (maxD earlier)

/-- The replay loop of `merge` (src/library.py lines 186-193): walk the
unmerged commits, diff each against the previous snapshot, and apply a
truthy diff to the live tracks. -/
def applyCommits (other : Library) :
    List DT → TrackMap → Library → Except String Library
  | [], _, acc => .ok acc
  | dt :: rest, prev, acc =>
    (other.load_commit dt).bind (fun cm =>
      let d := djLibraryDiff prev cm
      let acc' := if d.isEmpty then acc
        else { acc with
          tracks := applyTracks acc.tracks d
          events := acc.events ++ [Event.appliedDelta] }
      applyCommits other rest cm acc')

/-- The tail of `merge` (src/library.py lines 195-202): when the live
state still matches the latest own snapshot print a no-updates notice,
otherwise write the library out and commit. -/
def mergeFinish (lib : Library) (tc : DT) : Except String Library :=
  lib.diff.bind (fun d =>
    if d.isEmpty then .ok { lib with events := lib.events ++ [Event.noUpdates] }
    else Library.commit
      { lib with events := lib.events ++ [Event.wroteLibrary] } tc tc)

/-- `DJLibrary.merge` (src/library.py lines 152-209).  `tc` stands for
the `datetime.now()` calls inside the final commit, `tm` for the
`datetime.now()` written into the watermark (line 206).  With zero
unmerged commits the method returns at line 180, before the watermark
update.  A baseline of `None` reaches `load_commit(None)`, where
`None.strftime` raises. -/
def Library.merge (self other : Library) (tc tm : DT) : Except String Library :=
  match unmergedOf self other with
  | [] => .ok { self with events := self.events ++ [Event.mergeNoop] }
  | f0 :: rest =>
    match baselineOf other f0 with
    | none => .error "AttributeError: NoneType has no attribute strftime"
    | some base =>
      ((other.load_commit base).bind (fun prev0 =>
        (applyCommits other (f0 :: rest) prev0 self).bind (fun self1 =>
          mergeFinish self1 tc))).map (fun self2 =>
        { self2 with meta := setKey self2.meta other.library_type tm })

/-- Loadability of a commit-list entry: the snapshot file its
second-resolution name points at exists. -/
def Library.loadable (lib : Library) (dt : DT) : Bool :=
  (lookupKey lib.store (fmtSec dt)).isSome

/-- Truthiness of `self.diff()` at the commit boundary: `True` exactly
when the diff call returns normally and reports changes. -/
def diffNonempty (lib : Library) : Bool :=
  match lib.diff with
  | .ok d => !d.isEmpty
  | .error _ => false

/-- Well-formedness inherited from Python dicts: every track's tag
mapping has no duplicate tag names. -/
def TrackMapWF (m : TrackMap) : Prop :=
  ∀ p ∈ m, (keysOf p.2.tags).Nodup

/-- A per-track apply body that raises on one specific path (for example
`_scaffold_track` hitting a non-string genre member) and behaves like
the normal `apply` + scaffold body everywhere else. -/
def opRaisingOn (bad : String) : Track → TagsDiff → Except String Track :=
  fun tr d =>
    if tr.path = bad then .error "AttributeError: genre member has no attribute strip"
    else .ok (apply_step tr d)

/-- A one-track mapping holding genre `{Rock}`. -/
def tmA : TrackMap := [("/m/a.mp3", Track.mk "/m/a.mp3" [("genre", {"Rock"})])]

/-- The same track as `tmA` after gaining the genre `Alt`. -/
def tmA2 : TrackMap :=
  [("/m/a.mp3", Track.mk "/m/a.mp3" [("genre", {"Alt", "Rock"})])]

/-- A one-track mapping for the counterpart library. -/
def tmU : TrackMap := [("/m/u.mp3", Track.mk "/m/u.mp3" [("genre", {"House"})])]

def trackBad : Track := Track.mk "/m/bad.mp3" [("genre", {"Rock"})]

def trackOk3 : Track := Track.mk "/m/ok.mp3" [("genre", {"Pop"})]

def dBad : TagsDiff := tagsDiff [("genre", {"Rock"})] [("genre", {"Jazz"})]

def dOk : TagsDiff := tagsDiff [("genre", {"Pop"})] [("genre", {"Jazz"})]

def tracksC3 : TrackMap := [("/m/bad.mp3", trackBad), ("/m/ok.mp3", trackOk3)]

def diffC3 : LibDiff := [("/m/bad.mp3", dBad), ("/m/ok.mp3", dOk)]

/-- A library that has never committed: empty commit log and store. -/
def freshLib : Library :=
  { library_type := "ID3Library", tracks := tmA, commits := [], store := []
  , meta := [], events := [] }

def selfC5 : Library :=
  { library_type := "ID3Library", tracks := tmA, commits := [7000000]
  , store := [(7, tmA)], meta := [], events := [] }

/-- A counterpart whose whole history is unmerged: one commit, no
commit at or before the (absent) watermark. -/
def otherC5 : Library :=
  { library_type := "SwinsianLibrary", tracks := tmU, commits := [5000000]
  , store := [(5, tmU)], meta := [], events := [] }

def selfC2 : Library :=
  { library_type := "ID3Library", tracks := tmA, commits := [7000000]
  , store := [(7, tmA)], meta := [("SwinsianLibrary", 100000000)], events := [] }

/-- A counterpart with zero commits after `selfC2`'s watermark. -/
def otherC2 : Library :=
  { library_type := "SwinsianLibrary", tracks := tmU, commits := [50000000]
  , store := [(50, tmU)], meta := [], events := [] }

def selfW : Library :=
  { library_type := "ID3Library", tracks := tmA, commits := [100000000]
  , store := [(100, tmA)], meta := [("SwinsianLibrary", 55000000)], events := [] }

/-- A counterpart with one commit before and one after `selfW`'s
watermark, both holding the same tracks. -/
def otherW : Library :=
  { library_type := "SwinsianLibrary", tracks := tmU
  , commits := [50000000, 60000000], store := [(50, tmU), (60, tmU)]
  , meta := [], events := [] }

/-- The state `selfW.merge otherW` reaches: no track changed, so only
the no-updates notice and the advanced watermark. -/
def rW : Library :=
  { selfW with
    events := [Event.noUpdates]
    meta := [("SwinsianLibrary", 777000000)] }

/-- A library whose live tracks differ from its latest stored snapshot
(genre gained `Alt`). -/
def lib6 : Library :=
  { library_type := "ID3Library", tracks := tmA2, commits := [1000000]
  , store := [(1, tmA)], meta := [], events := [] }

/-- The state `lib6.commit` reaches when its two `datetime.now()` calls
straddle the second boundary at 3s: the file is written under second 2,
the appended timestamp falls in second 3. -/
def lib10r : Library :=
  { library_type := "ID3Library", tracks := tmA2
  , commits := [1000000, 3000000], store := [(1, tmA), (2, tmA2)]
  , meta := [], events := [Event.committed] }

theorem lookupKey_append {κ β : Type} [DecidableEq κ] (a b : List (κ × β)) (k : κ) :
    lookupKey (a ++ b) k =
      match lookupKey a k with
      | some v => some v
      | none => lookupKey b k := by
  induction a with
  | nil => rfl
  | cons p rest ih =>
    by_cases h : p.1 = k <;> simp [lookupKey, h, ih]

theorem lookupKey_filter_keyed {κ β : Type} [DecidableEq κ]
    (pred : κ → Bool) (l : List (κ × β)) (k : κ) :
    lookupKey (l.filter (fun p => pred p.1)) k =
      if pred k then lookupKey l k else none := by
  induction l with
  | nil => simp [lookupKey]
  | cons p rest ih =>
    by_cases h : p.1 = k
    · subst h
      by_cases hp : pred p.1 <;> simp [lookupKey, hp, ih]
    · by_cases hp : pred p.1 <;> simp [List.filter_cons, hp, lookupKey, h, ih]

theorem lookupKey_filter_none {κ β : Type} [DecidableEq κ]
    (f : κ × β → Bool) {l : List (κ × β)} {k : κ}
    (h : lookupKey l k = none) : lookupKey (l.filter f) k = none := by
  induction l with
  | nil => simp [lookupKey]
  | cons p rest ih =>
    simp only [lookupKey] at h
    by_cases hk : p.1 = k
    · simp [hk] at h
    · rw [if_neg hk] at h
      by_cases hf : f p <;> simp [List.filter_cons, hf, lookupKey, hk, ih h]

theorem lookupKey_map_val {κ β γ : Type} [DecidableEq κ]
    (f : κ → β → γ) (l : List (κ × β)) (k : κ) :
    lookupKey (l.map (fun p => (p.1, f p.1 p.2))) k = (lookupKey l k).map (f k) := by
  induction l with
  | nil => rfl
  | cons p rest ih =>
    by_cases h : p.1 = k
    · subst h; simp [lookupKey, ih]
    · simp [lookupKey, h, ih]

theorem lookupKey_mem {κ β : Type} [DecidableEq κ]
    {l : List (κ × β)} {k : κ} {v : β}
    (h : lookupKey l k = some v) : (k, v) ∈ l := by
  induction l with
  | nil => simp [lookupKey] at h
  | cons p rest ih =>
    by_cases hk : p.1 = k
    · rw [lookupKey, if_pos hk] at h
      cases h
      exact List.mem_cons.mpr (Or.inl (by cases p; simp_all))
    · rw [lookupKey, if_neg hk] at h
      exact List.mem_cons_of_mem _ (ih h)

theorem lookupKey_eq_none_iff {κ β : Type} [DecidableEq κ]
    {l : List (κ × β)} {k : κ} :
    lookupKey l k = none ↔ k ∉ keysOf l := by
  induction l with
  | nil => simp [lookupKey, keysOf]
  | cons p rest ih =>
    by_cases hk : p.1 = k
    · subst hk; simp [lookupKey, keysOf]
    · simp [lookupKey, hk, keysOf, ih, Ne.symm hk]

theorem lookup_isSome_of_mem {κ β : Type} [DecidableEq κ]
    {l : List (κ × β)} {p : κ × β} (h : p ∈ l) :
    (lookupKey l p.1).isSome := by
  induction l with
  | nil => simp at h
  | cons q rest ih =>
    rcases List.mem_cons.mp h with h1 | h2
    · subst h1; simp [lookupKey]
    · by_cases hk : q.1 = p.1 <;> simp [lookupKey, hk, ih h2]

theorem lookupKey_of_mem_nodup {κ β : Type} [DecidableEq κ]
    {l : List (κ × β)} {k : κ} {v : β}
    (hn : (keysOf l).Nodup) (h : (k, v) ∈ l) : lookupKey l k = some v := by
  induction l with
  | nil => simp at h
  | cons p rest ih =>
    simp only [keysOf, List.map_cons, List.nodup_cons] at hn
    rcases List.mem_cons.mp h with h1 | h2
    · subst h1; simp [lookupKey]
    · have hne : p.1 ≠ k := by
        intro he
        exact hn.1 (he ▸ (List.mem_map.mpr ⟨(k, v), h2, rfl⟩))
      simp [lookupKey, hne, ih hn.2 h2]

theorem sideItems_lookup_src_none {src other : Tags} {k : String}
    (h : lookupKey src k = none) : lookupKey (sideItems src other) k = none := by
  induction src with
  | nil => rfl
  | cons p rest ih =>
    rw [lookupKey] at h
    by_cases hk : p.1 = k
    · simp [hk] at h
    · rw [if_neg hk] at h
      simp only [sideItems, List.filterMap_cons]
      cases hlo : lookupKey other p.1 with
      | none => exact ih h
      | some b =>
        by_cases hz : p.2 - b = 0
        · simp only [hz, if_pos]
          exact ih h
        · simp only [hz, if_neg, not_false_iff]
          rw [lookupKey, if_neg hk]
          exact ih h

theorem sideItems_lookup_other_none {src other : Tags} {k : String}
    (h : lookupKey other k = none) : lookupKey (sideItems src other) k = none := by
  induction src with
  | nil => rfl
  | cons p rest ih =>
    simp only [sideItems, List.filterMap_cons]
    cases hlo : lookupKey other p.1 with
    | none => exact ih
    | some b =>
      have hk : p.1 ≠ k := by
        intro he
        rw [he, h] at hlo
        cases hlo
      by_cases hz : p.2 - b = 0
      · simp only [hz, if_pos]
        exact ih
      · simp only [hz, if_neg, not_false_iff]
        rw [lookupKey, if_neg hk]
        exact ih

theorem sideItems_cons_none {p : String × TagVal} {other : Tags} (rest : Tags)
    (h : lookupKey other p.1 = none) :
    sideItems (p :: rest) other = sideItems rest other := by
  unfold sideItems
  rw [List.filterMap_cons, h]

theorem sideItems_cons_some {p : String × TagVal} {other : Tags} {b : TagVal}
    (rest : Tags) (h : lookupKey other p.1 = some b) :
    sideItems (p :: rest) other =
      if p.2 - b = 0 then sideItems rest other
      else (p.1, p.2 - b) :: sideItems rest other := by
  unfold sideItems
  rw [List.filterMap_cons, h]
  by_cases hz : p.2 - b = 0 <;> simp [hz]

theorem sideItems_lookupOr0 {src other : Tags} {k : String} {a b : TagVal}
    (hn : (keysOf src).Nodup)
    (ha : lookupKey src k = some a) (hb : lookupKey other k = some b) :
    lookupOr0 (sideItems src other) k = a - b := by
  induction src with
  | nil => simp [lookupKey] at ha
  | cons p rest ih =>
    simp only [keysOf, List.map_cons, List.nodup_cons] at hn
    by_cases hk : p.1 = k
    · rw [lookupKey, if_pos hk] at ha
      have hpa : p.2 = a := by cases ha; rfl
      have hrest : lookupKey rest k = none := by
        apply lookupKey_eq_none_iff.mpr
        intro hmem
        exact hn.1 (hk ▸ hmem)
      have hob : lookupKey other p.1 = some b := by rw [hk]; exact hb
      rw [sideItems_cons_some rest hob]
      by_cases hz : p.2 - b = 0
      · rw [if_pos hz]
        unfold lookupOr0
        rw [sideItems_lookup_src_none hrest]
        simp [← hpa, hz]
      · rw [if_neg hz]
        unfold lookupOr0
        rw [lookupKey, if_pos hk]
        simp [hpa]
    · rw [lookupKey, if_neg hk] at ha
      have ihr := ih hn.2 ha
      cases hlo : lookupKey other p.1 with
      | none => rw [sideItems_cons_none rest hlo]; exact ihr
      | some c =>
        rw [sideItems_cons_some rest hlo]
        by_cases hz : p.2 - c = 0
        · rw [if_pos hz]
          exact ihr
        · rw [if_neg hz]
          unfold lookupOr0
          rw [lookupKey, if_neg hk]
          exact ihr

theorem tagval_round (a b : TagVal) : a - (a - b) + (b - a) = b := by
  ext x
  simp only [Multiset.count_add, Multiset.count_sub]
  omega

theorem mem_keysOf_of_lookup {κ β : Type} [DecidableEq κ]
    {l : List (κ × β)} {k : κ} {v : β}
    (h : lookupKey l k = some v) : k ∈ keysOf l :=
  List.mem_map.mpr ⟨(k, v), lookupKey_mem h, rfl⟩

theorem lookupKey_filter_isNoneOld (t l : Tags) (k : String)
    (h : lookupKey t k = none) :
    lookupKey (l.filter (fun p => (lookupKey t p.1).isNone)) k = lookupKey l k := by
  rw [lookupKey_filter_keyed (fun k' => (lookupKey t k').isNone)]
  simp [h]

theorem lookupKey_filter_isSomeOld (t l : Tags) (k : String) {a : TagVal}
    (h : lookupKey t k = some a) :
    lookupKey (l.filter (fun p => (lookupKey t p.1).isNone)) k = none := by
  rw [lookupKey_filter_keyed (fun k' => (lookupKey t k').isNone)]
  simp [h]

theorem lookupKey_filter_notMem (dr : List String) (l : Tags) (k : String)
    (h : k ∉ dr) :
    lookupKey (l.filter (fun p => !(decide (p.1 ∈ dr)))) k = lookupKey l k := by
  rw [lookupKey_filter_keyed (fun k' => !(decide (k' ∈ dr)))]
  simp [h]

theorem lookupKey_filter_mem (dr : List String) (l : Tags) (k : String)
    (h : k ∈ dr) :
    lookupKey (l.filter (fun p => !(decide (p.1 ∈ dr)))) k = none := by
  rw [lookupKey_filter_keyed (fun k' => !(decide (k' ∈ dr)))]
  simp [h]

/-- Round trip at the tag-mapping level: replaying the structural diff of
`old` against `new` onto `old` itself reproduces `new` at every key. -/
theorem applyTags_tagsDiff (old new : Tags)
    (h1 : (keysOf old).Nodup) (h2 : (keysOf new).Nodup) (k : String) :
    lookupKey (applyTags (tagsDiff old new) old) k = lookupKey new k := by
  have dA : (tagsDiff old new).dictAdded
      = new.filter (fun p => (lookupKey old p.1).isNone) := rfl
  have dR : (tagsDiff old new).dictRemoved
      = (keysOf old).filter (fun k' => (lookupKey new k').isNone) := rfl
  have iR : (tagsDiff old new).itemsRemoved = sideItems old new := rfl
  have iA : (tagsDiff old new).itemsAdded = sideItems new old := rfl
  simp only [applyTags, dA, dR, iR, iA]
  rw [lookupKey_append, lookupKey_map_val
    (fun k' v => v - lookupOr0 (sideItems old new) k' + lookupOr0 (sideItems new old) k'),
    lookupKey_append, lookupKey_map_val
    (fun k' v => (0 : TagVal) - lookupOr0 (sideItems old new) k' + v)]
  cases ho : lookupKey old k with
  | none =>
    cases hn : lookupKey new k with
    | none =>
      rw [lookupKey_filter_none _ ho, lookupKey_filter_isNoneOld old _ k ho,
        lookupKey_filter_isNoneOld old _ k ho, hn]
      rw [lookupKey_filter_none _ (sideItems_lookup_src_none hn)]
      rfl
    | some b =>
      rw [lookupKey_filter_none _ ho, lookupKey_filter_isNoneOld old _ k ho,
        lookupKey_filter_isNoneOld old _ k ho, hn]
      unfold lookupOr0
      rw [sideItems_lookup_src_none ho, sideItems_lookup_other_none ho]
      simp
  | some a =>
    cases hn : lookupKey new k with
    | none =>
      have hmem : k ∈ (keysOf old).filter (fun k' => (lookupKey new k').isNone) :=
        List.mem_filter.mpr ⟨mem_keysOf_of_lookup ho, by simp [hn]⟩
      rw [lookupKey_filter_mem _ _ _ hmem, lookupKey_filter_isSomeOld old _ k ho]
      rw [lookupKey_filter_none _ (sideItems_lookup_src_none hn)]
      rfl
    | some b =>
      have hmem : k ∉ (keysOf old).filter (fun k' => (lookupKey new k').isNone) := by
        intro hm
        have := (List.mem_filter.mp hm).2
        simp [hn] at this
      rw [lookupKey_filter_notMem _ _ _ hmem, ho]
      rw [sideItems_lookupOr0 h1 ho hn, sideItems_lookupOr0 h2 hn ho]
      simp [tagval_round]

/-- A falsy structural diff means the two mappings agree at every key. -/
theorem tagsDiff_isEmpty_lookup {old new : Tags}
    (h : (tagsDiff old new).isEmpty = true) (k : String) :
    lookupKey old k = lookupKey new k := by
  have h4 := h
  simp only [TagsDiff.isEmpty, tagsDiff, Bool.and_eq_true, List.isEmpty_iff] at h4
  obtain ⟨⟨⟨hA, hR⟩, hIR⟩, hIA⟩ := h4
  cases ho : lookupKey old k with
  | none =>
    cases hn : lookupKey new k with
    | none => rfl
    | some b =>
      exfalso
      have hmem := lookupKey_mem hn
      have := List.filter_eq_nil_iff.mp hA _ hmem
      simp [ho] at this
  | some a =>
    cases hn : lookupKey new k with
    | none =>
      exfalso
      have hmem := mem_keysOf_of_lookup ho
      have := List.filter_eq_nil_iff.mp hR _ hmem
      simp [hn] at this
    | some b =>
      have hab : a - b = 0 := by
        have := List.filterMap_eq_nil_iff.mp hIR _ (lookupKey_mem ho)
        rw [hn] at this
        by_cases hz : a - b = 0
        · exact hz
        · simp [hz] at this
      have hba : b - a = 0 := by
        have := List.filterMap_eq_nil_iff.mp hIA _ (lookupKey_mem hn)
        rw [ho] at this
        by_cases hz : b - a = 0
        · exact hz
        · simp [hz] at this
      rw [tsub_eq_zero_iff_le] at hab hba
      rw [le_antisymm hab hba]

/-- C1: for every pair of tag mappings `old` and `new`, computing the
structural diff with `Track.diff` (order-insensitive, repetition-aware)
and replaying it with `Track.apply` onto a track holding `old`
reproduces `new`: afterwards every tag name holds exactly `new`'s value.
Equality of the multiset-valued tags is Python equality up to member
order, which the genre normalization invariant quotients out. -/
theorem c1_track_diff_apply_round_trip (t1 t2 : Track)
    (h1 : (keysOf t1.tags).Nodup) (h2 : (keysOf t2.tags).Nodup) :
    ∀ k, lookupKey ((t1.apply (t1.diff t2)).tags) k = lookupKey t2.tags k := by
  intro k
  unfold Track.apply Track.diff
  by_cases he : (tagsDiff t1.tags t2.tags).isEmpty = true
  · rw [if_pos he]
    exact tagsDiff_isEmpty_lookup he k
  · rw [if_neg he]
    exact applyTags_tagsDiff _ _ h1 h2 k

theorem c1_witness :
    (keysOf (Track.mk "/m/s1.mp3"
      [("genre", {"Rock"}), ("title", {"S1"})]).tags).Nodup ∧
    (keysOf (Track.mk "/m/s1.mp3"
      [("genre", {"Alt", "Rock"}), ("artist", {"A1"})]).tags).Nodup ∧
    (∀ k, lookupKey (((Track.mk "/m/s1.mp3"
        [("genre", {"Rock"}), ("title", {"S1"})]).apply
          ((Track.mk "/m/s1.mp3" [("genre", {"Rock"}), ("title", {"S1"})]).diff
            (Track.mk "/m/s1.mp3" [("genre", {"Alt", "Rock"}), ("artist", {"A1"})]))).tags) k
      = lookupKey (Track.mk "/m/s1.mp3"
          [("genre", {"Alt", "Rock"}), ("artist", {"A1"})]).tags k) :=
  ⟨by decide, by decide,
    c1_track_diff_apply_round_trip _ _ (by decide) (by decide)⟩

theorem dropWhile_idem {α : Type} (p : α → Bool) (l : List α) :
    List.dropWhile p (List.dropWhile p l) = List.dropWhile p l := by
  induction l with
  | nil => rfl
  | cons x xs ih =>
    by_cases hp : p x
    · simp [List.dropWhile_cons, hp, ih]
    · simp [List.dropWhile_cons, hp]

theorem dropWhile_head_false {α : Type} {p : α → Bool} {l : List α} {x : α}
    {xs : List α} (h : List.dropWhile p l = x :: xs) : p x = false := by
  induction l with
  | nil => cases h
  | cons y ys ih =>
    rw [List.dropWhile_cons] at h
    by_cases hp : p y
    · rw [if_pos hp] at h
      exact ih h
    · rw [if_neg hp] at h
      cases h
      simpa using hp

theorem dropWhile_append_single {α : Type} {p : α → Bool} {x : α}
    (h : p x = false) (l : List α) :
    List.dropWhile p (l ++ [x]) = List.dropWhile p l ++ [x] := by
  induction l with
  | nil => simp [List.dropWhile_cons, h]
  | cons y ys ih =>
    by_cases hp : p y
    · simp [List.dropWhile_cons, hp, ih]
    · simp [List.dropWhile_cons, hp]

theorem stripChars_no_lead (s : Str) :
    List.dropWhile isWS (stripChars s) = stripChars s := by
  unfold stripChars
  cases ha : List.dropWhile isWS s with
  | nil => simp
  | cons x xs =>
    have hx : isWS x = false := dropWhile_head_false ha
    rw [List.reverse_cons, dropWhile_append_single hx, List.reverse_append]
    simp [List.dropWhile_cons, hx]

theorem stripChars_idem (s : Str) : stripChars (stripChars s) = stripChars s := by
  have h1 := stripChars_no_lead s
  have h2 : (stripChars s).reverse
      = List.dropWhile isWS ((s.dropWhile isWS).reverse) := by
    unfold stripChars
    rw [List.reverse_reverse]
  show (((stripChars s).dropWhile isWS).reverse.dropWhile isWS).reverse = stripChars s
  rw [h1, h2, dropWhile_idem, ← h2, List.reverse_reverse]

theorem mem_of_mem_stripChars {c : Char} {s : Str} (h : c ∈ stripChars s) :
    c ∈ s := by
  unfold stripChars at h
  rw [List.mem_reverse] at h
  have h2 : c ∈ (s.dropWhile isWS).reverse :=
    List.Sublist.mem h (List.dropWhile_sublist _)
  rw [List.mem_reverse] at h2
  exact List.Sublist.mem h2 (List.dropWhile_sublist _)

theorem splitComma_ne_nil (s : Str) : splitComma s ≠ [] := by
  cases s with
  | nil => simp [splitComma]
  | cons c rest =>
    unfold splitComma
    by_cases hc : c = ','
    · simp [hc]
    · rw [if_neg hc]
      cases h : splitComma rest with
      | nil => simp
      | cons a as => simp

theorem splitComma_no_comma {s piece : Str} (h : piece ∈ splitComma s) :
    (',' : Char) ∉ piece := by
  induction s generalizing piece with
  | nil =>
    unfold splitComma at h
    rcases List.mem_singleton.mp h with rfl
    simp
  | cons c rest ih =>
    unfold splitComma at h
    by_cases hc : c = ','
    · rw [if_pos hc] at h
      rcases List.mem_cons.mp h with h1 | h2
      · subst h1; simp
      · exact ih h2
    · rw [if_neg hc] at h
      cases hsp : splitComma rest with
      | nil => exact absurd hsp (splitComma_ne_nil rest)
      | cons a as =>
        rw [hsp] at h
        rcases List.mem_cons.mp h with h1 | h2
        · subst h1
          intro hmem
          rcases List.mem_cons.mp hmem with h3 | h4
          · exact hc h3.symm
          · exact ih (hsp ▸ List.mem_cons_self a as) h4
        · exact ih (hsp ▸ List.mem_cons_of_mem a h2)

theorem splitComma_single {s : Str} (h : (',' : Char) ∉ s) :
    splitComma s = [s] := by
  induction s with
  | nil => rfl
  | cons c rest ih =>
    have hc : c ≠ ',' := fun he => h (he ▸ List.mem_cons_self c rest)
    have hr : (',' : Char) ∉ rest := fun hm => h (List.mem_cons_of_mem c hm)
    unfold splitComma
    rw [if_neg hc, ih hr]

theorem flatMap_of_single {α : Type} {l : List α} {f : α → List α}
    (h : ∀ e ∈ l, f e = [e]) : l.flatMap f = l := by
  induction l with
  | nil => rfl
  | cons x xs ih =>
    rw [List.flatMap_cons, h x (List.mem_cons_self x xs),
      ih (fun e he => h e (List.mem_cons_of_mem x he))]
    rfl

theorem splitStrip_mem {gl : List Str} {e : Str} (h : e ∈ splitStrip gl) :
    stripChars e = e ∧ (',' : Char) ∉ e := by
  unfold splitStrip at h
  rw [List.mem_flatMap] at h
  obtain ⟨g, _, hmem⟩ := h
  rw [List.mem_map] at hmem
  obtain ⟨piece, hpiece, rfl⟩ := hmem
  refine ⟨stripChars_idem piece, fun hc => ?_⟩
  exact splitComma_no_comma hpiece (mem_of_mem_stripChars hc)

theorem splitStrip_fixed {l : List Str}
    (h : ∀ e ∈ l, stripChars e = e ∧ (',' : Char) ∉ e) : splitStrip l = l := by
  unfold splitStrip
  apply flatMap_of_single
  intro e he
  rw [splitComma_single (h e he).2, List.map_singleton, (h e he).1]

/-- C8: the genre normalization `clean_genre_list` (comma-split, strip,
deduplicate, sort) is idempotent: normalizing an already-normalized
genre list is a no-op. -/
theorem c8_clean_genre_list_idem (x : List Str) :
    clean_genre_list (clean_genre_list x) = clean_genre_list x := by
  set y := clean_genre_list x with hy
  have hperm : y.Perm ((splitStrip x).dedup) := by
    rw [hy]
    exact List.perm_insertionSort _ _
  have hmem : ∀ e ∈ y, stripChars e = e ∧ (',' : Char) ∉ e := by
    intro e he
    exact splitStrip_mem (List.mem_dedup.mp (hperm.mem_iff.mp he))
  have hnodup : y.Nodup := hperm.nodup_iff.mpr (List.nodup_dedup _)
  have hsorted : List.Sorted (· ≤ ·) y := by
    rw [hy]
    exact List.sorted_insertionSort _ _
  show clean_genre_list y = y
  unfold clean_genre_list
  rw [splitStrip_fixed hmem, List.dedup_eq_self.mpr hnodup]
  exact hsorted.insertionSort_eq

/-- C9 counterexample: the scaffold hook's normalization
(`DJLibrary._clean_genre_list`) does not produce the same result as the
TrackDocument constructor's (`Track._clean_genre_list`), already on the
singleton input `["Rock"]`: the library helper returns the bare Python
set `set(genre_split)` while the track helper returns the sorted list
`sorted(set(genre_split))`, and in Python a set never equals a list. -/
theorem c9_counterexample :
    DJLibrary_clean_genre_list [['R', 'o', 'c', 'k']]
      ≠ Track_clean_genre_list [['R', 'o', 'c', 'k']] := by
  decide

/-- C9 (amended): the scaffold hook's normalization agrees with the
TrackDocument constructor's up to ordering — both produce exactly the
comma-split, stripped, deduplicated elements — but the scaffold hook
returns them as an unordered set rather than a deterministically
ordered (sorted) list. -/
theorem c9_amended_same_elements (l : List Str) :
    (DJLibrary_clean_genre_list l).elems = (Track_clean_genre_list l).elems := by
  have hmem : ∀ a, a ∈ clean_genre_list l ↔ a ∈ splitStrip l := by
    intro a
    unfold clean_genre_list
    rw [(List.perm_insertionSort _ _).mem_iff, List.mem_dedup]
  show (splitStrip l).toFinset = (clean_genre_list l).toFinset
  apply Finset.ext
  intro a
  rw [List.mem_toFinset, List.mem_toFinset, hmem]

/-- C7: the track-by-track library diff only mentions paths present in
both track mappings: a path held by only one of the two snapshots never
appears among the diff's entries. -/
theorem c7_libdiff_shared_paths_only (old new : TrackMap) (p : String)
    (h : p ∈ keysOf (djLibraryDiff old new)) :
    (lookupKey old p).isSome ∧ (lookupKey new p).isSome := by
  unfold keysOf at h
  rw [List.mem_map] at h
  obtain ⟨entry, hentry, rfl⟩ := h
  unfold djLibraryDiff at hentry
  rw [List.mem_filterMap] at hentry
  obtain ⟨q, _, hq⟩ := hentry
  cases ho : lookupKey old q with
  | none => rw [ho] at hq; cases hq
  | some ot =>
    cases hn : lookupKey new q with
    | none => rw [ho, hn] at hq; cases hq
    | some nt =>
      rw [ho, hn] at hq
      by_cases he : (ot.diff nt).isEmpty = true
      · simp [he] at hq
      · simp [he] at hq
        rw [← hq]
        simp [ho, hn]

theorem c7_witness :
    "/m/s1.mp3" ∈ keysOf (djLibraryDiff
      [("/m/s1.mp3", Track.mk "/m/s1.mp3" [("genre", {"Rock"})]),
       ("/m/s2.mp3", Track.mk "/m/s2.mp3" [("genre", {"Pop"})])]
      [("/m/s1.mp3", Track.mk "/m/s1.mp3" [("genre", {"Jazz"})]),
       ("/m/s3.mp3", Track.mk "/m/s3.mp3" [("genre", {"Folk"})])]) ∧
    (lookupKey [("/m/s1.mp3", Track.mk "/m/s1.mp3" [("genre", {"Rock"})]),
       ("/m/s2.mp3", Track.mk "/m/s2.mp3" [("genre", {"Pop"})])] "/m/s1.mp3").isSome ∧
    (lookupKey [("/m/s1.mp3", Track.mk "/m/s1.mp3" [("genre", {"Jazz"})]),
       ("/m/s3.mp3", Track.mk "/m/s3.mp3" [("genre", {"Folk"})])] "/m/s1.mp3").isSome :=
  ⟨by decide, c7_libdiff_shared_paths_only _ _ _ (by decide)⟩

theorem lookupKey_updateKey_self {κ β : Type} [DecidableEq κ]
    {l : List (κ × β)} {k : κ} (v : β)
    (h : (lookupKey l k).isSome) : lookupKey (updateKey l k v) k = some v := by
  induction l with
  | nil => simp [lookupKey] at h
  | cons p rest ih =>
    by_cases hk : p.1 = k
    · simp [updateKey, lookupKey, hk]
    · rw [lookupKey, if_neg hk] at h
      show lookupKey ((if p.1 = k then (k, v) else p) :: updateKey rest k v) k
        = some v
      rw [if_neg hk, lookupKey, if_neg hk]
      exact ih h

theorem lookupKey_setKey_self {κ β : Type} [DecidableEq κ]
    (l : List (κ × β)) (k : κ) (v : β) :
    lookupKey (setKey l k v) k = some v := by
  unfold setKey
  by_cases h : (lookupKey l k).isSome
  · rw [if_pos h]
    exact lookupKey_updateKey_self v h
  · rw [if_neg h]
    rw [lookupKey_append]
    have hn : lookupKey l k = none := by
      cases hl : lookupKey l k
      · rfl
      · rw [hl] at h; simp at h
    rw [hn]
    simp [lookupKey]

theorem foldl_max_le {l : List DT} {a t : DT}
    (ha : a ≤ t) (h : ∀ c ∈ l, c ≤ t) : l.foldl max a ≤ t := by
  induction l generalizing a with
  | nil => exact ha
  | cons x xs ih =>
    exact ih (max_le ha (h x (List.mem_cons_self x xs)))
      (fun c hc => h c (List.mem_cons_of_mem x hc))

theorem maxD_append (l : List DT) (t : DT) (h : ∀ c ∈ l, c ≤ t) :
    maxD (l ++ [t]) = t := by
  unfold maxD
  rw [List.foldl_append]
  show max (l.foldl max 0) t = t
  exact max_eq_right (foldl_max_le (Nat.zero_le t) h)

theorem tagsDiff_self_isEmpty {x : Tags} (h : (keysOf x).Nodup) :
    (tagsDiff x x).isEmpty = true := by
  simp only [TagsDiff.isEmpty, tagsDiff, Bool.and_eq_true, List.isEmpty_iff]
  refine ⟨⟨⟨?_, ?_⟩, ?_⟩, ?_⟩
  · rw [List.filter_eq_nil_iff]
    intro p hp
    have hs := lookup_isSome_of_mem hp
    cases hl : lookupKey x p.1 with
    | none => rw [hl] at hs; simp at hs
    | some b => simp [hl]
  · rw [List.filter_eq_nil_iff]
    intro k hk
    unfold keysOf at hk
    rw [List.mem_map] at hk
    obtain ⟨p, hp, rfl⟩ := hk
    have hs := lookup_isSome_of_mem hp
    cases hl : lookupKey x p.1 with
    | none => rw [hl] at hs; simp at hs
    | some b => simp [hl]
  · unfold sideItems
    rw [List.filterMap_eq_nil_iff]
    intro p hp
    have hl : lookupKey x p.1 = some p.2 := lookupKey_of_mem_nodup h hp
    simp [hl, tsub_self]
  · unfold sideItems
    rw [List.filterMap_eq_nil_iff]
    intro p hp
    have hl : lookupKey x p.1 = some p.2 := lookupKey_of_mem_nodup h hp
    simp [hl, tsub_self]

theorem djLibraryDiff_self {m : TrackMap} (h : TrackMapWF m) :
    djLibraryDiff m m = [] := by
  unfold djLibraryDiff
  rw [List.filterMap_eq_nil_iff]
  intro q _
  cases hl : lookupKey m q with
  | none => rfl
  | some tr =>
    have hn : (keysOf tr.tags).Nodup := h (q, tr) (lookupKey_mem hl)
    have he : (tr.diff tr).isEmpty = true := tagsDiff_self_isEmpty hn
    simp [he]

/-- C3 counterexample: when applying one track's diff raises, the whole
`DJLibrary.apply` loop raises — the error is not caught, and the diffs
of the remaining tracks (here `/m/ok.mp3`) are never applied, because
the loop body has no `try`/`except`. -/
theorem c3_counterexample :
    applyTracksE (opRaisingOn "/m/bad.mp3") tracksC3 diffC3
      = .error "AttributeError: genre member has no attribute strip" := by
  rfl

/-- C3 (amended): an error raised while applying one track's structural
diff is not caught: it propagates out of `DJLibrary.apply`, aborting
diff application for that track and for every remaining track of the
merge. -/
theorem c3_amended_apply_error_propagates
    (op : Track → TagsDiff → Except String Track)
    (tracks : TrackMap) (p : String) (d : TagsDiff) (rest : LibDiff)
    (tr : Track) (e : String)
    (hlk : lookupKey tracks p = some tr) (herr : op tr d = .error e) :
    applyTracksE op tracks ((p, d) :: rest) = .error e := by
  unfold applyTracksE
  rw [hlk]
  show (op tr d).bind
    (fun tr' => applyTracksE op (updateKey tracks p tr') rest) = Except.error e
  rw [herr]
  rfl

theorem c3_witness :
    lookupKey tracksC3 "/m/bad.mp3" = some trackBad ∧
    opRaisingOn "/m/bad.mp3" trackBad dBad
      = .error "AttributeError: genre member has no attribute strip" ∧
    applyTracksE (opRaisingOn "/m/bad.mp3") tracksC3 [("/m/bad.mp3", dBad)]
      = .error "AttributeError: genre member has no attribute strip" :=
  ⟨rfl, rfl,
    c3_amended_apply_error_propagates _ _ _ _ _ _ _ rfl rfl⟩

/-- C4: on a library whose commit log is empty, the first-ever
`commit()` does not succeed: `self.diff()` raises
`ValueError('No commits found to diff against.')`, `commit` has no
handler for it, and the exception propagates to the caller instead of
being treated as "everything is new"; no snapshot is stored. -/
theorem c4_first_commit_raises :
    Library.commit freshLib 0 0 = .error "No commits found to diff against." ∧
    Library.diff freshLib = .error "No commits found to diff against." :=
  ⟨rfl, rfl⟩

/-- C5: on the first merge ever (no counterpart snapshot at or before
the watermark), `merge` does not fall back to an empty baseline
snapshot: `max(..., default=None)` yields `None`, `load_commit(None)`
evaluates `None.strftime`, and the resulting exception aborts the whole
merge. -/
theorem c5_first_merge_crashes :
    Library.merge selfC5 otherC5 9000000 9000001
      = .error "AttributeError: NoneType has no attribute strftime" := by
  rfl

/-- C10: `commit()` draws `datetime.now()` twice — once for the snapshot
file name, once for the appended commit-list entry.  When the two calls
straddle a second boundary (here 2.999999s and 3.000000s), the appended
timestamp names a file that was never written: it is not loadable, and
the library's own next `diff()` raises `FileNotFoundError`. -/
theorem c10_commit_clock_skew_breaks_loadability :
    Library.commit lib6 2999999 3000000 = .ok lib10r ∧
    3000000 ∈ lib10r.commits ∧
    lib10r.loadable 3000000 = false ∧
    Library.diff lib10r = .error "FileNotFoundError" := by
  refine ⟨rfl, ?_, rfl, rfl⟩
  simp [lib10r]

theorem except_map_ok {ε α β : Type} {f : α → β} {e : Except ε α} {r : β}
    (h : e.map f = .ok r) : ∃ a, e = .ok a ∧ r = f a := by
  cases e with
  | error err => simp [Except.map] at h
  | ok a =>
    refine ⟨a, rfl, ?_⟩
    simp only [Except.map] at h
    cases h
    rfl

/-- C2 counterexample: merging a counterpart with zero unmerged commits
returns at the early `return` (src/library.py line 180) without touching
`meta`: afterwards the watermark still holds its old value `100000000`,
not the merge-time `now()` value `999000000` — so the watermark is not
advanced unconditionally. -/
theorem c2_counterexample :
    Library.merge selfC2 otherC2 0 999000000
      = .ok { selfC2 with events := [Event.mergeNoop] } ∧
    lookupKey ({ selfC2 with events := [Event.mergeNoop] }).meta "SwinsianLibrary"
      = some 100000000 ∧
    (100000000 : DT) ≠ 999000000 :=
  ⟨rfl, rfl, by decide⟩

/-- C2 (amended): when `A.merge(B)` finds at least one unmerged commit
and returns normally, the watermark `A.watermarks[B]` is set to the
merge-time `now()` regardless of whether any track changed or a
snapshot was written; with zero unmerged commits, merge returns early
and the watermark is left unchanged. -/
theorem c2_amended_watermark_advance (self other : Library) (tc tm : DT)
    (r : Library)
    (hne : unmergedOf self other ≠ [])
    (hok : Library.merge self other tc tm = .ok r) :
    lookupKey r.meta other.library_type = some tm := by
  unfold Library.merge at hok
  cases hu : unmergedOf self other with
  | nil => exact absurd hu hne
  | cons f0 rest =>
    rw [hu] at hok
    simp only [] at hok
    cases hb : baselineOf other f0 with
    | none => rw [hb] at hok; cases hok
    | some base =>
      rw [hb] at hok
      simp only [] at hok
      obtain ⟨self2, _, hr⟩ := except_map_ok hok
      rw [hr]
      exact lookupKey_setKey_self _ _ _

theorem c2_witness :
    unmergedOf selfW otherW ≠ [] ∧
    Library.merge selfW otherW 0 777000000 = .ok rW ∧
    lookupKey rW.meta "SwinsianLibrary" = some 777000000 :=
  ⟨by decide, by rfl,
    c2_amended_watermark_advance selfW otherW 0 777000000 rW (by decide) (by rfl)⟩

theorem diff_after_commitStore (lib : Library) (t1 t2 : DT)
    (hwf : TrackMapWF lib.tracks) (hmax : ∀ c ∈ lib.commits, c ≤ t2)
    (hsec : fmtSec t1 = fmtSec t2) :
    Library.diff { lib with
      store := setKey lib.store (fmtSec t1) lib.tracks
      commits := lib.commits ++ [t2]
      events := lib.events ++ [Event.committed] } = .ok [] := by
  simp only [Library.diff, Library.load_commit]
  rw [if_neg (by simp)]
  rw [maxD_append _ _ hmax, ← hsec, lookupKey_setKey_self]
  simp [Except.map, djLibraryDiff_self hwf]

/-- C6: `commit()` stores a snapshot only when the diff against the
latest stored snapshot is non-empty; when the live state has changed,
one `commit()` stores exactly one snapshot and appends exactly one
commit-list entry, and a second `commit()` with no intervening mutation
stores nothing: it returns with only a skip notice appended, leaving
commit list and store untouched.  `t1, t2` are the first commit's two
`datetime.now()` calls (assumed to fall in the same second — their
divergence is the separate C10 finding); the old commits are assumed
not to postdate the new timestamp. -/
theorem c6_commit_idempotent (lib : Library) (t1 t2 t3 t4 : DT)
    (hwf : TrackMapWF lib.tracks)
    (hd : diffNonempty lib = true)
    (hmax : ∀ c ∈ lib.commits, c ≤ t2)
    (hsec : fmtSec t1 = fmtSec t2) :
    ∃ lib1,
      Library.commit lib t1 t2 = .ok lib1 ∧
      lib1.tracks = lib.tracks ∧
      lib1.commits = lib.commits ++ [t2] ∧
      lib1.store = setKey lib.store (fmtSec t1) lib.tracks ∧
      Library.commit lib1 t3 t4
        = .ok { lib1 with events := lib1.events ++ [Event.skipCommit] } := by
  unfold diffNonempty at hd
  cases hdl : Library.diff lib with
  | error e => rw [hdl] at hd; simp at hd
  | ok d =>
    rw [hdl] at hd
    have hde : d.isEmpty = false := by simpa using hd
    refine ⟨{ lib with
        store := setKey lib.store (fmtSec t1) lib.tracks
        commits := lib.commits ++ [t2]
        events := lib.events ++ [Event.committed] }, ?_, rfl, rfl, rfl, ?_⟩
    · simp [Library.commit, hdl, hde]
    · have hdiff1 := diff_after_commitStore lib t1 t2 hwf hmax hsec
      simp [Library.commit, hdiff1]

theorem c6_witness :
    TrackMapWF lib6.tracks ∧ diffNonempty lib6 = true ∧
    (∀ c ∈ lib6.commits, c ≤ 5000000) ∧
    fmtSec 5000000 = fmtSec 5000000 ∧
    (∃ lib1,
      Library.commit lib6 5000000 5000000 = .ok lib1 ∧
      lib1.tracks = lib6.tracks ∧
      lib1.commits = lib6.commits ++ [5000000] ∧
      lib1.store = setKey lib6.store (fmtSec 5000000) lib6.tracks ∧
      Library.commit lib1 6000000 6000000
        = .ok { lib1 with events := lib1.events ++ [Event.skipCommit] }) :=
  ⟨by unfold TrackMapWF; decide, by decide, by decide, rfl,
    c6_commit_idempotent lib6 5000000 5000000 6000000 6000000
      (by unfold TrackMapWF; decide) (by decide) (by decide) rfl⟩
